import Mathlib

/-!
Shallow embedding of `rcrt1` (src/src/lib.rs): the static-PIE self-relocation
engine `inner_dyn_reloc` / `dyn_reloc` and the bootstrap routine `rcrt`.

Memory is modelled byte-addressed: `Mem a` is the 64-bit word stored at
address `a`.  All u64/usize arithmetic of the source is performed modulo
`U64 = 2 ^ 64`.  The unbounded source loops (the dynamic-table scan, the
argv/env null scans, the auxv scan) are given fuel; running out of fuel
models the loop not terminating, so those functions return `Option`.
-/

/-- The modulus of all u64 / usize arithmetic in the source: 2 ^ 64. -/
def U64 : Nat := 2 ^ 64

/-- Byte-addressed memory: the 64-bit word stored at each address. -/
abbrev Mem := Nat → Nat

/-- Read the u64 at address `a` (stored words are reduced mod 2 ^ 64). -/
def rd (m : Mem) (a : Nat) : Nat := m a % U64

/-- Write the u64 `v` to address `a`. -/
def memWrite (m : Mem) (a v : Nat) : Mem := fun x => if x = a then v else m x

/-- Build a concrete memory from an association list; unlisted cells hold 0. -/
def memOfList : List (Nat × Nat) → Mem
  | [] => fun _ => 0
  | (a, v) :: rest => memWrite (memOfList rest) a v

/-- `const R_TYPE_MASK: u64 = 0x7fffffff;` (src/lib.rs line 8). -/
def R_TYPE_MASK : Nat := 0x7fffffff

/-- `R_X86_64_RELATIVE` from goblin: the load-bias-relative relocation type. -/
def R_X86_64_RELATIVE : Nat := 8

/-- ELF dynamic tag `DT_REL` (address of the implicit-addend table). -/
def DT_REL : Nat := 17

/-- ELF dynamic tag `DT_RELSZ` (byte size of the implicit-addend table). -/
def DT_RELSZ : Nat := 18

/-- ELF dynamic tag `DT_RELA` (address of the explicit-addend table). -/
def DT_RELA : Nat := 7

/-- ELF dynamic tag `DT_RELASZ` (byte size of the explicit-addend table). -/
def DT_RELASZ : Nat := 8

/-- ELF program-header type of the dynamic-information segment. -/
def PT_DYNAMIC : Nat := 2

/-- Auxiliary-vector key for the program-header table address. -/
def AT_PHDR : Nat := 3

/-- Auxiliary-vector key for the size of one program header. -/
def AT_PHENT : Nat := 4

/-- Auxiliary-vector key for the number of program headers. -/
def AT_PHNUM : Nat := 5

/-- `core::mem::size_of::<Rel>()`: a `Rel` is `(r_offset: u64, r_info: u64)`. -/
def sizeOfRel : Nat := 16

/-- `core::mem::size_of::<Rela>()`: a `Rela` adds an `r_addend: i64` field. -/
def sizeOfRela : Nat := 24

/-- `core::mem::size_of::<Dyn>()`: a `Dyn` is `(d_tag, d_val)`. -/
def sizeOfDyn : Nat := 16

/-- The four mutable locals of `inner_dyn_reloc` recorded by the table scan. -/
structure ScanResult where
  dt_rel : Option Nat
  dt_relsz : Nat
  dt_rela : Option Nat
  dt_relasz : Nat
deriving DecidableEq, Repr

/-- Initial scan state: `dt_rel = None`, `dt_relsz = 0`, etc. -/
def scanInit : ScanResult := ⟨none, 0, none, 0⟩

/-- One arm of the `match (*dynv).d_tag` in `inner_dyn_reloc` (lines 46-53):
sizes are divided by the entry size, unknown tags are ignored. -/
def scanStep (acc : ScanResult) (tag val : Nat) : ScanResult :=
  if tag = DT_REL then ⟨some val, acc.dt_relsz, acc.dt_rela, acc.dt_relasz⟩
  else if tag = DT_RELSZ then ⟨acc.dt_rel, val / sizeOfRel, acc.dt_rela, acc.dt_relasz⟩
  else if tag = DT_RELA then ⟨acc.dt_rel, acc.dt_relsz, some val, acc.dt_relasz⟩
  else if tag = DT_RELASZ then ⟨acc.dt_rel, acc.dt_relsz, acc.dt_rela, val / sizeOfRela⟩
  else acc

/-- The `loop`/`break` dynamic-table scan of `inner_dyn_reloc` (lines 45-55):
read `(d_tag, d_val)` pairs at `dynv`, `dynv + 16`, ... until `d_tag = 0`.
`none` means the terminator was not reached within `fuel` iterations. -/
def scanDyn (m : Mem) : Nat → Nat → ScanResult → Option ScanResult
  | 0, _, _ => none
  | fuel + 1, dynv, acc =>
    if rd m dynv = 0 then some acc
    else scanDyn m fuel (dynv + sizeOfDyn) (scanStep acc (rd m dynv) (rd m (dynv + 8)))

/-- Processing of one `Rel` entry at address `p` (lines 60-65): if
`r_info & R_TYPE_MASK == R_X86_64_RELATIVE`, add `base` to the word at
`base + r_offset`; otherwise do nothing. -/
def applyRel (base : Nat) (m : Mem) (p : Nat) : Mem :=
  if Nat.land (rd m (p + 8)) R_TYPE_MASK = R_X86_64_RELATIVE then
    memWrite m ((base + rd m p) % U64) ((rd m ((base + rd m p) % U64) + base) % U64)
  else m

/-- Processing of one `Rela` entry at address `p` (lines 71-77): if
`r_info & R_TYPE_MASK == R_X86_64_RELATIVE`, write `base + r_addend` to the
word at `base + r_offset`, unconditionally overwriting it. -/
def applyRela (base : Nat) (m : Mem) (p : Nat) : Mem :=
  if Nat.land (rd m (p + 8)) R_TYPE_MASK = R_X86_64_RELATIVE then
    memWrite m ((base + rd m p) % U64) ((base + rd m (p + 16)) % U64)
  else m

/-- The `rels.iter()...for_each` loop: process `n` `Rel` entries starting at
`tbl`, sequentially, each 16 bytes after the previous one. -/
def processRels (base : Nat) : Nat → Nat → Mem → Mem
  | _, 0, m => m
  | tbl, n + 1, m => processRels base (tbl + sizeOfRel) n (applyRel base m tbl)

/-- The `relas.iter()...for_each` loop: process `n` `Rela` entries starting at
`tbl`, sequentially, each 24 bytes after the previous one. -/
def processRelas (base : Nat) : Nat → Nat → Mem → Mem
  | _, 0, m => m
  | tbl, n + 1, m => processRelas base (tbl + sizeOfRela) n (applyRela base m tbl)

/-- The `if let Some(dt_rel) = dt_rel` block (lines 57-66). -/
def relPhase (base : Nat) (s : ScanResult) (m : Mem) : Mem :=
  match s.dt_rel with
  | none => m
  | some dt_rel => processRels base ((base + dt_rel) % U64) s.dt_relsz m

/-- The `if let Some(dt_rela) = dt_rela` block (lines 68-78). -/
def relaPhase (base : Nat) (s : ScanResult) (m : Mem) : Mem :=
  match s.dt_rela with
  | none => m
  | some dt_rela => processRelas base ((base + dt_rela) % U64) s.dt_relasz m

/-- `inner_dyn_reloc(dynamic_section, base)` (lines 37-79): scan the dynamic
table, then run the implicit-addend loop, then the explicit-addend loop.
`none` only when the table scan does not terminate within `fuel`. -/
def inner_dyn_reloc (fuel : Nat) (m : Mem) (dynamic_section base : Nat) : Option Mem :=
  match scanDyn m fuel dynamic_section scanInit with
  | none => none
  | some s => some (relaPhase base s (relPhase base s m))

/-- `dyn_reloc` (lines 32-34) just forwards to `inner_dyn_reloc`. -/
def dyn_reloc (fuel : Nat) (m : Mem) (dynamic_section base : Nat) : Option Mem :=
  inner_dyn_reloc fuel m dynamic_section base

/-- Relocation type of `Rel` entry `i` of the table at `tbl`:
`r_info & R_TYPE_MASK`. -/
def relType (m : Mem) (tbl i : Nat) : Nat :=
  Nat.land (rd m (tbl + sizeOfRel * i + 8)) R_TYPE_MASK

/-- Target address of `Rel` entry `i`: `base + r_offset` as a u64. -/
def relTarget (base : Nat) (m : Mem) (tbl i : Nat) : Nat :=
  (base + rd m (tbl + sizeOfRel * i)) % U64

/-- Relocation type of `Rela` entry `i` of the table at `tbl`. -/
def relaType (m : Mem) (tbl i : Nat) : Nat :=
  Nat.land (rd m (tbl + sizeOfRela * i + 8)) R_TYPE_MASK

/-- Target address of `Rela` entry `i`: `base + r_offset` as a u64. -/
def relaTarget (base : Nat) (m : Mem) (tbl i : Nat) : Nat :=
  (base + rd m (tbl + sizeOfRela * i)) % U64

/-- Value written by `Rela` entry `i`: `base + r_addend` as a u64. -/
def relaValue (base : Nat) (m : Mem) (tbl i : Nat) : Nat :=
  (base + rd m (tbl + sizeOfRela * i + 16)) % U64

/-- Wrapping u64 subtraction, for `dynv as u64 - (*ph).p_vaddr` (line 144). -/
def u64_sub (a b : Nat) : Nat := (a % U64 + (U64 - b % U64)) % U64

/-- The `while *argv.add(i) != 0 { i += 1 }` scan of `rcrt` (lines 111-114):
starting from word index `i`, find the first index whose word is 0. -/
def findNull (m : Mem) : Nat → Nat → Nat → Option Nat
  | 0, _, _ => none
  | fuel + 1, argv, i =>
    if rd m (argv + 8 * i) = 0 then some i else findNull m fuel argv (i + 1)

/-- The three mutable locals of the auxiliary-vector scan in `rcrt`. -/
structure AuxState where
  ph : Nat
  phentsize : Nat
  phnum : Nat
deriving DecidableEq, Repr

/-- Initial aux-scan state: `phnum = 0`, `phentsize = 0`, `ph = 0`. -/
def auxInit : AuxState := ⟨0, 0, 0⟩

/-- One arm of the `match *auxv_ptr.add(i)` in `rcrt` (lines 124-129). -/
def auxStep (st : AuxState) (key val : Nat) : AuxState :=
  if key = AT_PHDR then ⟨val, st.phentsize, st.phnum⟩
  else if key = AT_PHENT then ⟨st.ph, val, st.phnum⟩
  else if key = AT_PHNUM then ⟨st.ph, st.phentsize, val⟩
  else st

/-- The auxiliary-vector scan of `rcrt` (lines 122-135): read `(key, value)`
pairs until a zero key, breaking early once all three values are nonzero. -/
def scanAuxv (m : Mem) : Nat → Nat → AuxState → Option AuxState
  | 0, _, _ => none
  | fuel + 1, p, st =>
    if rd m p = 0 then some st
    else
      if (auxStep st (rd m p) (rd m (p + 8))).ph ≠ 0 ∧
          (auxStep st (rd m p) (rd m (p + 8))).phentsize ≠ 0 ∧
          (auxStep st (rd m p) (rd m (p + 8))).phnum ≠ 0 then
        some (auxStep st (rd m p) (rd m (p + 8)))
      else scanAuxv m fuel (p + 16) (auxStep st (rd m p) (rd m (p + 8)))

/-- Outcome of `rcrt`: either the Relocation Engine ran with the computed
load bias and `pre_main` was invoked on the resulting memory, or the
program-header walk was exhausted and the `unreachable!()` trap was reached. -/
inductive RcrtResult where
  | preMain (base : Nat) (m : Mem) : RcrtResult
  | trap : RcrtResult

/-- The program-header walk of `rcrt` (lines 140-153): `cnt` headers starting
at `ph`, each `pe` bytes after the previous one.  `p_type` is the low 32 bits
of the word at the header's address; `p_vaddr` is the word at offset 16.
On the first `PT_DYNAMIC` header the engine runs with
`base = dynv - p_vaddr` and `pre_main` is reached; if the walk is exhausted
the `unreachable!()` on line 156 is reached. -/
def walkPh (m : Mem) (dynv pe ef : Nat) : Nat → Nat → Option RcrtResult
  | 0, _ => some RcrtResult.trap
  | cnt + 1, ph =>
    if rd m ph % 2 ^ 32 = PT_DYNAMIC then
      match inner_dyn_reloc ef m dynv (u64_sub dynv (rd m (ph + 16))) with
      | none => none
      | some m2 => some (RcrtResult.preMain (u64_sub dynv (rd m (ph + 16))) m2)
    else walkPh m dynv pe ef cnt ((ph + pe) % U64)

/-- Address of header `j` in the walk: advance `j` times by `pe`, mod 2 ^ 64. -/
def phAddr (pe : Nat) : Nat → Nat → Nat
  | ph, 0 => ph
  | ph, j + 1 => phAddr pe ((ph + pe) % U64) j

/-- `rcrt(dynv, sp, pre_main)` (lines 98-157): skip argc/argv/envp, scan the
auxiliary vector, then walk the program headers. -/
def rcrt (m : Mem) (dynv sp : Nat) (nfuel afuel efuel : Nat) : Option RcrtResult :=
  match findNull m nfuel (sp + 8) (rd m sp + 1) with
  | none => none
  | some i =>
    match scanAuxv m afuel (sp + 8 + 8 * (i + 1)) auxInit with
    | none => none
    | some st => walkPh m dynv st.phentsize efuel st.phnum st.ph

/-- Concrete memory for the C1 witness: a dynamic table at 0 describing an
implicit-addend table of two load-bias-relative entries at 0x200. -/
def relMem1 : Mem := memOfList [(0, 17), (8, 0x100), (16, 18), (24, 32), (32, 0),
  (0x200, 0x400), (0x208, 8), (0x210, 0x408), (0x218, 8), (0x500, 7), (0x508, 9)]

/-- Concrete memory for the C2 witness: a dynamic table at 0 describing an
explicit-addend table of two entries at 0x200, one load-bias-relative and one
of a foreign type. -/
def relaMem2 : Mem := memOfList [(0, 7), (8, 0x100), (16, 8), (24, 48), (32, 0),
  (0x200, 0x400), (0x208, 8), (0x210, 0x111),
  (0x218, 0x408), (0x220, 7), (0x228, 5), (0x500, 0xdead)]

/-- Concrete memory for C5: the recorded `DT_RELSZ` is 8, not a multiple of
the 16-byte `Rel` entry size. -/
def sizeMem5 : Mem := memOfList [(0, 17), (8, 0x100), (16, 18), (24, 8), (32, 0)]

/-- Concrete memory for the C6 witness: both tables present, each mixing one
load-bias-relative entry with one foreign-type entry. -/
def mixMem6 : Mem := memOfList [(0, 17), (8, 0x100), (16, 18), (24, 32),
  (32, 7), (40, 0x200), (48, 8), (56, 48), (64, 0),
  (0x200, 0x400), (0x208, 8), (0x210, 0x408), (0x218, 1),
  (0x300, 0x410), (0x308, 8), (0x310, 0x42), (0x318, 0x418), (0x320, 3), (0x328, 9),
  (0x500, 5), (0x508, 6), (0x510, 7), (0x518, 9)]

/-- Concrete memory for the C7 witness: one load-bias-relative `Rel` entry. -/
def twiceMem7 : Mem := memOfList [(0, 17), (8, 0x100), (16, 18), (24, 16), (32, 0),
  (0x200, 0x300), (0x208, 8), (0x400, 5)]

/-- Concrete memory for the C9 witness: a `DT_REL` address tag with no
`DT_RELSZ` size tag. -/
def tableMem9 : Mem := memOfList [(0, 17), (8, 0x100), (16, 0)]

/-- Concrete memory for the C3 witness: the spec's end-to-end scenario with
link-time virtual address V = 0x10000.  Initial stack at 0x8000 (argc 1, one
argument, empty environment, auxv AT_PHDR/AT_PHENT/AT_PHNUM), one PT_DYNAMIC
program header at 0x7000 with `p_vaddr = V`, the dynamic section physically
at V + 0x1000 = 0x11000, and one implicit-addend load-bias-relative entry
with `r_offset = V + 0x10` whose target cell holds 0x2000. -/
def stackMem3 : Mem := memOfList [
  (0x8000, 1), (0x8008, 0x9999), (0x8010, 0), (0x8018, 0),
  (0x8020, 3), (0x8028, 0x7000), (0x8030, 4), (0x8038, 56),
  (0x8040, 5), (0x8048, 1), (0x8050, 0),
  (0x7000, 2), (0x7010, 0x10000),
  (0x11000, 17), (0x11008, 0x11000), (0x11010, 0x2000), (0x11018, 0),
  (0x11020, 18), (0x11028, 16), (0x11030, 0),
  (0x12000, 0x10010), (0x12008, 8)]

/-- Concrete memory for the C4 witness: like the C3 stack, but the single
program header has type `PT_LOAD` (1), not `PT_DYNAMIC`. -/
def stackMem4 : Mem := memOfList [
  (0, 1), (8, 0x9999), (16, 0), (24, 0),
  (32, 3), (40, 0x7000), (48, 4), (56, 56), (64, 5), (72, 1), (80, 0),
  (0x7000, 1), (0x7010, 0x500)]

/-- Concrete memory for the C10 witness: the auxiliary vector carries
`AT_PHDR` and `AT_PHENT` but no `AT_PHNUM`. -/
def stackMem10 : Mem := memOfList [
  (0, 1), (8, 0x9999), (16, 0), (24, 0),
  (32, 3), (40, 0x7000), (48, 4), (56, 56), (64, 0)]

/-! ### Basic memory lemmas -/

theorem memWrite_self (m : Mem) (a v : Nat) : memWrite m a v a = v := by
  unfold memWrite
  rw [if_pos rfl]

theorem memWrite_ne (m : Mem) (a v x : Nat) (h : x ≠ a) : memWrite m a v x = m x := by
  unfold memWrite
  rw [if_neg h]

theorem rd_memWrite_ne (m : Mem) (a v x : Nat) (h : x ≠ a) :
    rd (memWrite m a v) x = rd m x := by
  unfold rd
  rw [memWrite_ne m a v x h]

theorem rd_congr (m1 m : Mem) (x : Nat) (h : m1 x = m x) : rd m1 x = rd m x := by
  unfold rd
  rw [h]

/-! ### Unfolding equations -/

theorem processRels_zero (base tbl : Nat) (m : Mem) : processRels base tbl 0 m = m := rfl

theorem processRels_succ (base tbl n : Nat) (m : Mem) :
    processRels base tbl (n + 1) m =
      processRels base (tbl + sizeOfRel) n (applyRel base m tbl) := rfl

theorem processRelas_zero (base tbl : Nat) (m : Mem) : processRelas base tbl 0 m = m := rfl

theorem processRelas_succ (base tbl n : Nat) (m : Mem) :
    processRelas base tbl (n + 1) m =
      processRelas base (tbl + sizeOfRela) n (applyRela base m tbl) := rfl

theorem scanDyn_succ (m : Mem) (fuel dynv : Nat) (acc : ScanResult) :
    scanDyn m (fuel + 1) dynv acc =
      if rd m dynv = 0 then some acc
      else scanDyn m fuel (dynv + sizeOfDyn) (scanStep acc (rd m dynv) (rd m (dynv + 8))) := rfl

/-! ### Entry-field shift and write-preservation lemmas -/

theorem relType_shift (m : Mem) (tbl i : Nat) :
    relType m (tbl + sizeOfRel) i = relType m tbl (i + 1) := by
  unfold relType
  have h : tbl + sizeOfRel + sizeOfRel * i + 8 = tbl + sizeOfRel * (i + 1) + 8 := by ring
  rw [h]

theorem relTarget_shift (base : Nat) (m : Mem) (tbl i : Nat) :
    relTarget base m (tbl + sizeOfRel) i = relTarget base m tbl (i + 1) := by
  unfold relTarget
  have h : tbl + sizeOfRel + sizeOfRel * i = tbl + sizeOfRel * (i + 1) := by ring
  rw [h]

theorem relaType_shift (m : Mem) (tbl i : Nat) :
    relaType m (tbl + sizeOfRela) i = relaType m tbl (i + 1) := by
  unfold relaType
  have h : tbl + sizeOfRela + sizeOfRela * i + 8 = tbl + sizeOfRela * (i + 1) + 8 := by ring
  rw [h]

theorem relaTarget_shift (base : Nat) (m : Mem) (tbl i : Nat) :
    relaTarget base m (tbl + sizeOfRela) i = relaTarget base m tbl (i + 1) := by
  unfold relaTarget
  have h : tbl + sizeOfRela + sizeOfRela * i = tbl + sizeOfRela * (i + 1) := by ring
  rw [h]

theorem relaValue_shift (base : Nat) (m : Mem) (tbl i : Nat) :
    relaValue base m (tbl + sizeOfRela) i = relaValue base m tbl (i + 1) := by
  unfold relaValue
  have h : tbl + sizeOfRela + sizeOfRela * i + 16 = tbl + sizeOfRela * (i + 1) + 16 := by ring
  rw [h]

theorem relType_memWrite (m : Mem) (a v tbl i : Nat) (h : a ≠ tbl + sizeOfRel * i + 8) :
    relType (memWrite m a v) tbl i = relType m tbl i := by
  unfold relType
  rw [rd_memWrite_ne m a v _ h.symm]

theorem relTarget_memWrite (base : Nat) (m : Mem) (a v tbl i : Nat)
    (h : a ≠ tbl + sizeOfRel * i) :
    relTarget base (memWrite m a v) tbl i = relTarget base m tbl i := by
  unfold relTarget
  rw [rd_memWrite_ne m a v _ h.symm]

theorem relaType_memWrite (m : Mem) (a v tbl i : Nat) (h : a ≠ tbl + sizeOfRela * i + 8) :
    relaType (memWrite m a v) tbl i = relaType m tbl i := by
  unfold relaType
  rw [rd_memWrite_ne m a v _ h.symm]

theorem relaTarget_memWrite (base : Nat) (m : Mem) (a v tbl i : Nat)
    (h : a ≠ tbl + sizeOfRela * i) :
    relaTarget base (memWrite m a v) tbl i = relaTarget base m tbl i := by
  unfold relaTarget
  rw [rd_memWrite_ne m a v _ h.symm]

theorem relaValue_memWrite (base : Nat) (m : Mem) (a v tbl i : Nat)
    (h : a ≠ tbl + sizeOfRela * i + 16) :
    relaValue base (memWrite m a v) tbl i = relaValue base m tbl i := by
  unfold relaValue
  rw [rd_memWrite_ne m a v _ h.symm]

/-! ### One-entry unfoldings of the per-entry processing -/

theorem applyRel_pos (base : Nat) (m : Mem) (tbl : Nat)
    (c : relType m tbl 0 = R_X86_64_RELATIVE) :
    applyRel base m tbl =
      memWrite m (relTarget base m tbl 0) ((rd m (relTarget base m tbl 0) + base) % U64) := by
  unfold relType at c
  unfold applyRel relTarget
  simp only [Nat.mul_zero, Nat.add_zero] at c ⊢
  rw [if_pos c]

theorem applyRel_neg (base : Nat) (m : Mem) (tbl : Nat)
    (c : relType m tbl 0 ≠ R_X86_64_RELATIVE) :
    applyRel base m tbl = m := by
  unfold relType at c
  unfold applyRel
  simp only [Nat.mul_zero, Nat.add_zero] at c
  rw [if_neg c]

theorem applyRela_pos (base : Nat) (m : Mem) (tbl : Nat)
    (c : relaType m tbl 0 = R_X86_64_RELATIVE) :
    applyRela base m tbl =
      memWrite m (relaTarget base m tbl 0) (relaValue base m tbl 0) := by
  unfold relaType at c
  unfold applyRela relaTarget relaValue
  simp only [Nat.mul_zero, Nat.add_zero] at c ⊢
  rw [if_pos c]

theorem applyRela_neg (base : Nat) (m : Mem) (tbl : Nat)
    (c : relaType m tbl 0 ≠ R_X86_64_RELATIVE) :
    applyRela base m tbl = m := by
  unfold relaType at c
  unfold applyRela
  simp only [Nat.mul_zero, Nat.add_zero] at c
  rw [if_neg c]

/-! ### Frame lemmas: the loops write nothing outside the targets of
load-bias-relative entries (provided those targets avoid the table fields,
so that later entries are read unclobbered). -/

theorem processRels_frame (base : Nat) :
    ∀ (n : Nat), ∀ (tbl : Nat) (m : Mem),
      (∀ i j, i < n → j < n → relType m tbl i = R_X86_64_RELATIVE →
        relTarget base m tbl i ≠ tbl + sizeOfRel * j ∧
        relTarget base m tbl i ≠ tbl + sizeOfRel * j + 8) →
      ∀ a, (∀ i, i < n → relType m tbl i = R_X86_64_RELATIVE →
        a ≠ relTarget base m tbl i) →
      processRels base tbl n m a = m a := by
  intro n
  induction n with
  | zero => intro tbl m _ a _; rfl
  | succ n ih =>
    intro tbl m Hd a ha
    by_cases c : relType m tbl 0 = R_X86_64_RELATIVE
    · rw [processRels_succ, applyRel_pos base m tbl c]
      have htyp : ∀ i, i < n →
          relType (memWrite m (relTarget base m tbl 0)
            ((rd m (relTarget base m tbl 0) + base) % U64)) (tbl + sizeOfRel) i =
          relType m tbl (i + 1) := by
        intro i hi
        rw [relType_shift,
          relType_memWrite m _ _ tbl (i + 1)
            (Hd 0 (i + 1) (Nat.succ_pos n) (Nat.succ_lt_succ hi) c).2]
      have htgt : ∀ i, i < n →
          relTarget base (memWrite m (relTarget base m tbl 0)
            ((rd m (relTarget base m tbl 0) + base) % U64)) (tbl + sizeOfRel) i =
          relTarget base m tbl (i + 1) := by
        intro i hi
        rw [relTarget_shift,
          relTarget_memWrite base m _ _ tbl (i + 1)
            (Hd 0 (i + 1) (Nat.succ_pos n) (Nat.succ_lt_succ hi) c).1]
      have step := ih (tbl + sizeOfRel)
        (memWrite m (relTarget base m tbl 0) ((rd m (relTarget base m tbl 0) + base) % U64))
        (by
          intro i j hi hj ht
          rw [htyp i hi] at ht
          rw [htgt i hi]
          have e1 : tbl + sizeOfRel + sizeOfRel * j = tbl + sizeOfRel * (j + 1) := by ring
          rw [e1]
          exact Hd (i + 1) (j + 1) (Nat.succ_lt_succ hi) (Nat.succ_lt_succ hj) ht)
        a
        (by
          intro i hi ht
          rw [htyp i hi] at ht
          rw [htgt i hi]
          exact ha (i + 1) (Nat.succ_lt_succ hi) ht)
      rw [step]
      exact memWrite_ne m _ _ a (ha 0 (Nat.succ_pos n) c)
    · rw [processRels_succ, applyRel_neg base m tbl c]
      exact ih (tbl + sizeOfRel) m
        (by
          intro i j hi hj ht
          rw [relType_shift] at ht
          rw [relTarget_shift]
          have e1 : tbl + sizeOfRel + sizeOfRel * j = tbl + sizeOfRel * (j + 1) := by ring
          rw [e1]
          exact Hd (i + 1) (j + 1) (Nat.succ_lt_succ hi) (Nat.succ_lt_succ hj) ht)
        a
        (by
          intro i hi ht
          rw [relType_shift] at ht
          rw [relTarget_shift]
          exact ha (i + 1) (Nat.succ_lt_succ hi) ht)

theorem processRelas_frame (base : Nat) :
    ∀ (n : Nat), ∀ (tbl : Nat) (m : Mem),
      (∀ i j, i < n → j < n → relaType m tbl i = R_X86_64_RELATIVE →
        relaTarget base m tbl i ≠ tbl + sizeOfRela * j ∧
        relaTarget base m tbl i ≠ tbl + sizeOfRela * j + 8 ∧
        relaTarget base m tbl i ≠ tbl + sizeOfRela * j + 16) →
      ∀ a, (∀ i, i < n → relaType m tbl i = R_X86_64_RELATIVE →
        a ≠ relaTarget base m tbl i) →
      processRelas base tbl n m a = m a := by
  intro n
  induction n with
  | zero => intro tbl m _ a _; rfl
  | succ n ih =>
    intro tbl m Hd a ha
    by_cases c : relaType m tbl 0 = R_X86_64_RELATIVE
    · rw [processRelas_succ, applyRela_pos base m tbl c]
      have htyp : ∀ i, i < n →
          relaType (memWrite m (relaTarget base m tbl 0) (relaValue base m tbl 0))
            (tbl + sizeOfRela) i = relaType m tbl (i + 1) := by
        intro i hi
        rw [relaType_shift,
          relaType_memWrite m _ _ tbl (i + 1)
            (Hd 0 (i + 1) (Nat.succ_pos n) (Nat.succ_lt_succ hi) c).2.1]
      have htgt : ∀ i, i < n →
          relaTarget base (memWrite m (relaTarget base m tbl 0) (relaValue base m tbl 0))
            (tbl + sizeOfRela) i = relaTarget base m tbl (i + 1) := by
        intro i hi
        rw [relaTarget_shift,
          relaTarget_memWrite base m _ _ tbl (i + 1)
            (Hd 0 (i + 1) (Nat.succ_pos n) (Nat.succ_lt_succ hi) c).1]
      have step := ih (tbl + sizeOfRela)
        (memWrite m (relaTarget base m tbl 0) (relaValue base m tbl 0))
        (by
          intro i j hi hj ht
          rw [htyp i hi] at ht
          rw [htgt i hi]
          have e1 : tbl + sizeOfRela + sizeOfRela * j = tbl + sizeOfRela * (j + 1) := by ring
          rw [e1]
          exact Hd (i + 1) (j + 1) (Nat.succ_lt_succ hi) (Nat.succ_lt_succ hj) ht)
        a
        (by
          intro i hi ht
          rw [htyp i hi] at ht
          rw [htgt i hi]
          exact ha (i + 1) (Nat.succ_lt_succ hi) ht)
      rw [step]
      exact memWrite_ne m _ _ a (ha 0 (Nat.succ_pos n) c)
    · rw [processRelas_succ, applyRela_neg base m tbl c]
      exact ih (tbl + sizeOfRela) m
        (by
          intro i j hi hj ht
          rw [relaType_shift] at ht
          rw [relaTarget_shift]
          have e1 : tbl + sizeOfRela + sizeOfRela * j = tbl + sizeOfRela * (j + 1) := by ring
          rw [e1]
          exact Hd (i + 1) (j + 1) (Nat.succ_lt_succ hi) (Nat.succ_lt_succ hj) ht)
        a
        (by
          intro i hi ht
          rw [relaType_shift] at ht
          rw [relaTarget_shift]
          exact ha (i + 1) (Nat.succ_lt_succ hi) ht)

/-! ### Value lemmas: what each load-bias-relative entry's target holds after
the loop, assuming targets are pairwise distinct and avoid the table fields. -/

theorem processRels_values (base : Nat) :
    ∀ (n : Nat), ∀ (tbl : Nat) (m : Mem),
      (∀ i j, i < n → j < n → relType m tbl i = R_X86_64_RELATIVE →
        relTarget base m tbl i ≠ tbl + sizeOfRel * j ∧
        relTarget base m tbl i ≠ tbl + sizeOfRel * j + 8) →
      (∀ i j, i < n → j < n → i ≠ j →
        relType m tbl i = R_X86_64_RELATIVE → relType m tbl j = R_X86_64_RELATIVE →
        relTarget base m tbl i ≠ relTarget base m tbl j) →
      ∀ i, i < n → relType m tbl i = R_X86_64_RELATIVE →
        processRels base tbl n m (relTarget base m tbl i) =
          (rd m (relTarget base m tbl i) + base) % U64 := by
  intro n
  induction n with
  | zero => intro tbl m _ _ i hi; exact absurd hi (Nat.not_lt_zero i)
  | succ n ih =>
    intro tbl m Hd Hdist i hi hti
    by_cases c : relType m tbl 0 = R_X86_64_RELATIVE
    · have htyp : ∀ k, k < n →
          relType (memWrite m (relTarget base m tbl 0)
            ((rd m (relTarget base m tbl 0) + base) % U64)) (tbl + sizeOfRel) k =
          relType m tbl (k + 1) := by
        intro k hk
        rw [relType_shift,
          relType_memWrite m _ _ tbl (k + 1)
            (Hd 0 (k + 1) (Nat.succ_pos n) (Nat.succ_lt_succ hk) c).2]
      have htgt : ∀ k, k < n →
          relTarget base (memWrite m (relTarget base m tbl 0)
            ((rd m (relTarget base m tbl 0) + base) % U64)) (tbl + sizeOfRel) k =
          relTarget base m tbl (k + 1) := by
        intro k hk
        rw [relTarget_shift,
          relTarget_memWrite base m _ _ tbl (k + 1)
            (Hd 0 (k + 1) (Nat.succ_pos n) (Nat.succ_lt_succ hk) c).1]
      have Hd2 : ∀ k j, k < n → j < n →
          relType (memWrite m (relTarget base m tbl 0)
            ((rd m (relTarget base m tbl 0) + base) % U64)) (tbl + sizeOfRel) k =
            R_X86_64_RELATIVE →
          relTarget base (memWrite m (relTarget base m tbl 0)
            ((rd m (relTarget base m tbl 0) + base) % U64)) (tbl + sizeOfRel) k ≠
            tbl + sizeOfRel + sizeOfRel * j ∧
          relTarget base (memWrite m (relTarget base m tbl 0)
            ((rd m (relTarget base m tbl 0) + base) % U64)) (tbl + sizeOfRel) k ≠
            tbl + sizeOfRel + sizeOfRel * j + 8 := by
        intro k j hk hj ht
        rw [htyp k hk] at ht
        rw [htgt k hk]
        have e1 : tbl + sizeOfRel + sizeOfRel * j = tbl + sizeOfRel * (j + 1) := by ring
        rw [e1]
        exact Hd (k + 1) (j + 1) (Nat.succ_lt_succ hk) (Nat.succ_lt_succ hj) ht
      have Hdist2 : ∀ k j, k < n → j < n → k ≠ j →
          relType (memWrite m (relTarget base m tbl 0)
            ((rd m (relTarget base m tbl 0) + base) % U64)) (tbl + sizeOfRel) k =
            R_X86_64_RELATIVE →
          relType (memWrite m (relTarget base m tbl 0)
            ((rd m (relTarget base m tbl 0) + base) % U64)) (tbl + sizeOfRel) j =
            R_X86_64_RELATIVE →
          relTarget base (memWrite m (relTarget base m tbl 0)
            ((rd m (relTarget base m tbl 0) + base) % U64)) (tbl + sizeOfRel) k ≠
          relTarget base (memWrite m (relTarget base m tbl 0)
            ((rd m (relTarget base m tbl 0) + base) % U64)) (tbl + sizeOfRel) j := by
        intro k j hk hj hne htk htj
        rw [htyp k hk] at htk
        rw [htyp j hj] at htj
        rw [htgt k hk, htgt j hj]
        exact Hdist (k + 1) (j + 1) (Nat.succ_lt_succ hk) (Nat.succ_lt_succ hj)
          (by omega) htk htj
      cases i with
      | zero =>
        rw [processRels_succ, applyRel_pos base m tbl c]
        have hfr := processRels_frame base n (tbl + sizeOfRel)
          (memWrite m (relTarget base m tbl 0) ((rd m (relTarget base m tbl 0) + base) % U64))
          Hd2 (relTarget base m tbl 0)
          (by
            intro k hk htk
            rw [htyp k hk] at htk
            rw [htgt k hk]
            exact Hdist 0 (k + 1) (Nat.succ_pos n) (Nat.succ_lt_succ hk) (by omega) c htk)
        rw [hfr]
        exact memWrite_self m _ _
      | succ i2 =>
        have hi2 : i2 < n := Nat.lt_of_succ_lt_succ hi
        rw [processRels_succ, applyRel_pos base m tbl c]
        have e := ih (tbl + sizeOfRel)
          (memWrite m (relTarget base m tbl 0) ((rd m (relTarget base m tbl 0) + base) % U64))
          Hd2 Hdist2 i2 hi2 (by rw [htyp i2 hi2]; exact hti)
        rw [htgt i2 hi2] at e
        rw [e]
        rw [rd_memWrite_ne m _ _ _
          (Hdist (i2 + 1) 0 (Nat.succ_lt_succ hi2) (Nat.succ_pos n) (by omega) hti c)]
    · cases i with
      | zero => exact absurd hti c
      | succ i2 =>
        have hi2 : i2 < n := Nat.lt_of_succ_lt_succ hi
        rw [processRels_succ, applyRel_neg base m tbl c]
        have Hd2 : ∀ k j, k < n → j < n → relType m (tbl + sizeOfRel) k = R_X86_64_RELATIVE →
            relTarget base m (tbl + sizeOfRel) k ≠ tbl + sizeOfRel + sizeOfRel * j ∧
            relTarget base m (tbl + sizeOfRel) k ≠ tbl + sizeOfRel + sizeOfRel * j + 8 := by
          intro k j hk hj ht
          rw [relType_shift] at ht
          rw [relTarget_shift]
          have e1 : tbl + sizeOfRel + sizeOfRel * j = tbl + sizeOfRel * (j + 1) := by ring
          rw [e1]
          exact Hd (k + 1) (j + 1) (Nat.succ_lt_succ hk) (Nat.succ_lt_succ hj) ht
        have Hdist2 : ∀ k j, k < n → j < n → k ≠ j →
            relType m (tbl + sizeOfRel) k = R_X86_64_RELATIVE →
            relType m (tbl + sizeOfRel) j = R_X86_64_RELATIVE →
            relTarget base m (tbl + sizeOfRel) k ≠ relTarget base m (tbl + sizeOfRel) j := by
          intro k j hk hj hne htk htj
          rw [relType_shift] at htk htj
          rw [relTarget_shift, relTarget_shift]
          exact Hdist (k + 1) (j + 1) (Nat.succ_lt_succ hk) (Nat.succ_lt_succ hj)
            (by omega) htk htj
        have e := ih (tbl + sizeOfRel) m Hd2 Hdist2 i2 hi2
          (by rw [relType_shift]; exact hti)
        rw [relTarget_shift] at e
        rw [e]

theorem processRelas_values (base : Nat) :
    ∀ (n : Nat), ∀ (tbl : Nat) (m : Mem),
      (∀ i j, i < n → j < n → relaType m tbl i = R_X86_64_RELATIVE →
        relaTarget base m tbl i ≠ tbl + sizeOfRela * j ∧
        relaTarget base m tbl i ≠ tbl + sizeOfRela * j + 8 ∧
        relaTarget base m tbl i ≠ tbl + sizeOfRela * j + 16) →
      (∀ i j, i < n → j < n → i ≠ j →
        relaType m tbl i = R_X86_64_RELATIVE → relaType m tbl j = R_X86_64_RELATIVE →
        relaTarget base m tbl i ≠ relaTarget base m tbl j) →
      ∀ i, i < n → relaType m tbl i = R_X86_64_RELATIVE →
        processRelas base tbl n m (relaTarget base m tbl i) = relaValue base m tbl i := by
  intro n
  induction n with
  | zero => intro tbl m _ _ i hi; exact absurd hi (Nat.not_lt_zero i)
  | succ n ih =>
    intro tbl m Hd Hdist i hi hti
    by_cases c : relaType m tbl 0 = R_X86_64_RELATIVE
    · have htyp : ∀ k, k < n →
          relaType (memWrite m (relaTarget base m tbl 0) (relaValue base m tbl 0))
            (tbl + sizeOfRela) k = relaType m tbl (k + 1) := by
        intro k hk
        rw [relaType_shift,
          relaType_memWrite m _ _ tbl (k + 1)
            (Hd 0 (k + 1) (Nat.succ_pos n) (Nat.succ_lt_succ hk) c).2.1]
      have htgt : ∀ k, k < n →
          relaTarget base (memWrite m (relaTarget base m tbl 0) (relaValue base m tbl 0))
            (tbl + sizeOfRela) k = relaTarget base m tbl (k + 1) := by
        intro k hk
        rw [relaTarget_shift,
          relaTarget_memWrite base m _ _ tbl (k + 1)
            (Hd 0 (k + 1) (Nat.succ_pos n) (Nat.succ_lt_succ hk) c).1]
      have hval : ∀ k, k < n →
          relaValue base (memWrite m (relaTarget base m tbl 0) (relaValue base m tbl 0))
            (tbl + sizeOfRela) k = relaValue base m tbl (k + 1) := by
        intro k hk
        rw [relaValue_shift,
          relaValue_memWrite base m _ _ tbl (k + 1)
            (Hd 0 (k + 1) (Nat.succ_pos n) (Nat.succ_lt_succ hk) c).2.2]
      have Hd2 : ∀ k j, k < n → j < n →
          relaType (memWrite m (relaTarget base m tbl 0) (relaValue base m tbl 0))
            (tbl + sizeOfRela) k = R_X86_64_RELATIVE →
          relaTarget base (memWrite m (relaTarget base m tbl 0) (relaValue base m tbl 0))
            (tbl + sizeOfRela) k ≠ tbl + sizeOfRela + sizeOfRela * j ∧
          relaTarget base (memWrite m (relaTarget base m tbl 0) (relaValue base m tbl 0))
            (tbl + sizeOfRela) k ≠ tbl + sizeOfRela + sizeOfRela * j + 8 ∧
          relaTarget base (memWrite m (relaTarget base m tbl 0) (relaValue base m tbl 0))
            (tbl + sizeOfRela) k ≠ tbl + sizeOfRela + sizeOfRela * j + 16 := by
        intro k j hk hj ht
        rw [htyp k hk] at ht
        rw [htgt k hk]
        have e1 : tbl + sizeOfRela + sizeOfRela * j = tbl + sizeOfRela * (j + 1) := by ring
        rw [e1]
        exact Hd (k + 1) (j + 1) (Nat.succ_lt_succ hk) (Nat.succ_lt_succ hj) ht
      have Hdist2 : ∀ k j, k < n → j < n → k ≠ j →
          relaType (memWrite m (relaTarget base m tbl 0) (relaValue base m tbl 0))
            (tbl + sizeOfRela) k = R_X86_64_RELATIVE →
          relaType (memWrite m (relaTarget base m tbl 0) (relaValue base m tbl 0))
            (tbl + sizeOfRela) j = R_X86_64_RELATIVE →
          relaTarget base (memWrite m (relaTarget base m tbl 0) (relaValue base m tbl 0))
            (tbl + sizeOfRela) k ≠
          relaTarget base (memWrite m (relaTarget base m tbl 0) (relaValue base m tbl 0))
            (tbl + sizeOfRela) j := by
        intro k j hk hj hne htk htj
        rw [htyp k hk] at htk
        rw [htyp j hj] at htj
        rw [htgt k hk, htgt j hj]
        exact Hdist (k + 1) (j + 1) (Nat.succ_lt_succ hk) (Nat.succ_lt_succ hj)
          (by omega) htk htj
      cases i with
      | zero =>
        rw [processRelas_succ, applyRela_pos base m tbl c]
        have hfr := processRelas_frame base n (tbl + sizeOfRela)
          (memWrite m (relaTarget base m tbl 0) (relaValue base m tbl 0))
          Hd2 (relaTarget base m tbl 0)
          (by
            intro k hk htk
            rw [htyp k hk] at htk
            rw [htgt k hk]
            exact Hdist 0 (k + 1) (Nat.succ_pos n) (Nat.succ_lt_succ hk) (by omega) c htk)
        rw [hfr]
        exact memWrite_self m _ _
      | succ i2 =>
        have hi2 : i2 < n := Nat.lt_of_succ_lt_succ hi
        rw [processRelas_succ, applyRela_pos base m tbl c]
        have e := ih (tbl + sizeOfRela)
          (memWrite m (relaTarget base m tbl 0) (relaValue base m tbl 0))
          Hd2 Hdist2 i2 hi2 (by rw [htyp i2 hi2]; exact hti)
        rw [htgt i2 hi2] at e
        rw [e]
        exact hval i2 hi2
    · cases i with
      | zero => exact absurd hti c
      | succ i2 =>
        have hi2 : i2 < n := Nat.lt_of_succ_lt_succ hi
        rw [processRelas_succ, applyRela_neg base m tbl c]
        have Hd2 : ∀ k j, k < n → j < n →
            relaType m (tbl + sizeOfRela) k = R_X86_64_RELATIVE →
            relaTarget base m (tbl + sizeOfRela) k ≠ tbl + sizeOfRela + sizeOfRela * j ∧
            relaTarget base m (tbl + sizeOfRela) k ≠ tbl + sizeOfRela + sizeOfRela * j + 8 ∧
            relaTarget base m (tbl + sizeOfRela) k ≠
              tbl + sizeOfRela + sizeOfRela * j + 16 := by
          intro k j hk hj ht
          rw [relaType_shift] at ht
          rw [relaTarget_shift]
          have e1 : tbl + sizeOfRela + sizeOfRela * j = tbl + sizeOfRela * (j + 1) := by ring
          rw [e1]
          exact Hd (k + 1) (j + 1) (Nat.succ_lt_succ hk) (Nat.succ_lt_succ hj) ht
        have Hdist2 : ∀ k j, k < n → j < n → k ≠ j →
            relaType m (tbl + sizeOfRela) k = R_X86_64_RELATIVE →
            relaType m (tbl + sizeOfRela) j = R_X86_64_RELATIVE →
            relaTarget base m (tbl + sizeOfRela) k ≠
              relaTarget base m (tbl + sizeOfRela) j := by
          intro k j hk hj hne htk htj
          rw [relaType_shift] at htk htj
          rw [relaTarget_shift, relaTarget_shift]
          exact Hdist (k + 1) (j + 1) (Nat.succ_lt_succ hk) (Nat.succ_lt_succ hj)
            (by omega) htk htj
        have e := ih (tbl + sizeOfRela) m Hd2 Hdist2 i2 hi2
          (by rw [relaType_shift]; exact hti)
        rw [relaTarget_shift] at e
        rw [e, relaValue_shift]

/-! ### Engine assembly and dynamic-table-scan lemmas -/

theorem inner_dyn_reloc_scan (fuel : Nat) (m : Mem) (dynv base : Nat) (s : ScanResult)
    (hscan : scanDyn m fuel dynv scanInit = some s) :
    inner_dyn_reloc fuel m dynv base = some (relaPhase base s (relPhase base s m)) := by
  unfold inner_dyn_reloc
  rw [hscan]

theorem relPhase_relsz_zero (base : Nat) (s : ScanResult) (m : Mem) (h : s.dt_relsz = 0) :
    relPhase base s m = m := by
  obtain ⟨dr, dsz, dra, drasz⟩ := s
  simp only at h
  subst h
  cases dr with
  | none => rfl
  | some r => rfl

theorem relaPhase_relasz_zero (base : Nat) (s : ScanResult) (m : Mem) (h : s.dt_relasz = 0) :
    relaPhase base s m = m := by
  obtain ⟨dr, dsz, dra, drasz⟩ := s
  simp only at h
  subst h
  cases dra with
  | none => rfl
  | some r => rfl

/-- The dynamic-table scan only reads the words at `dynv + 8 * k` for
`k < 2 * fuel`, so it is unchanged by writes elsewhere. -/
theorem scanDyn_congr (m1 m : Mem) :
    ∀ (fuel : Nat), ∀ (dynv : Nat) (acc : ScanResult),
      (∀ k, k < 2 * fuel → rd m1 (dynv + 8 * k) = rd m (dynv + 8 * k)) →
      scanDyn m1 fuel dynv acc = scanDyn m fuel dynv acc := by
  intro fuel
  induction fuel with
  | zero => intro dynv acc _; rfl
  | succ fuel ih =>
    intro dynv acc h
    have h0 : rd m1 dynv = rd m dynv := by
      have := h 0 (by omega)
      simpa using this
    have h1 : rd m1 (dynv + 8) = rd m (dynv + 8) := by
      have := h 1 (by omega)
      simpa using this
    rw [scanDyn_succ, scanDyn_succ, h0, h1]
    by_cases hz : rd m dynv = 0
    · rw [if_pos hz, if_pos hz]
    · rw [if_neg hz, if_neg hz]
      exact ih (dynv + sizeOfDyn) _ (by
        intro k hk
        have e : dynv + sizeOfDyn + 8 * k = dynv + 8 * (k + 2) := by
          unfold sizeOfDyn
          ring
        rw [e]
        exact h (k + 2) (by omega))

theorem scanStep_relsz (acc : ScanResult) (tag val : Nat) (h : tag ≠ DT_RELSZ) :
    (scanStep acc tag val).dt_relsz = acc.dt_relsz := by
  unfold scanStep
  by_cases h1 : tag = DT_REL
  · rw [if_pos h1]
  · rw [if_neg h1, if_neg h]
    by_cases h3 : tag = DT_RELA
    · rw [if_pos h3]
    · rw [if_neg h3]
      by_cases h4 : tag = DT_RELASZ
      · rw [if_pos h4]
      · rw [if_neg h4]

theorem scanStep_relasz (acc : ScanResult) (tag val : Nat) (h : tag ≠ DT_RELASZ) :
    (scanStep acc tag val).dt_relasz = acc.dt_relasz := by
  unfold scanStep
  by_cases h1 : tag = DT_REL
  · rw [if_pos h1]
  · rw [if_neg h1]
    by_cases h2 : tag = DT_RELSZ
    · rw [if_pos h2]
    · rw [if_neg h2]
      by_cases h3 : tag = DT_RELA
      · rw [if_pos h3]
      · rw [if_neg h3, if_neg h]

/-- If no `DT_RELSZ` tag occurs among the scanned words, `dt_relsz` keeps its
initial value. -/
theorem scanDyn_no_relsz (m : Mem) :
    ∀ (fuel : Nat), ∀ (dynv : Nat) (acc : ScanResult) (s : ScanResult),
      (∀ k, k < fuel → rd m (dynv + sizeOfDyn * k) ≠ DT_RELSZ) →
      scanDyn m fuel dynv acc = some s →
      s.dt_relsz = acc.dt_relsz := by
  intro fuel
  induction fuel with
  | zero =>
    intro dynv acc s _ hs
    exact absurd hs (by rw [show scanDyn m 0 dynv acc = none from rfl]; exact fun h => by cases h)
  | succ fuel ih =>
    intro dynv acc s hk hs
    rw [scanDyn_succ] at hs
    by_cases hz : rd m dynv = 0
    · rw [if_pos hz] at hs
      cases hs
      rfl
    · rw [if_neg hz] at hs
      have h0 : rd m dynv ≠ DT_RELSZ := by
        have := hk 0 (Nat.succ_pos fuel)
        simpa using this
      have step := ih (dynv + sizeOfDyn) (scanStep acc (rd m dynv) (rd m (dynv + 8))) s
        (by
          intro k hkk
          have e : dynv + sizeOfDyn + sizeOfDyn * k = dynv + sizeOfDyn * (k + 1) := by ring
          rw [e]
          exact hk (k + 1) (Nat.succ_lt_succ hkk))
        hs
      rw [step]
      exact scanStep_relsz acc _ _ h0

/-- If no `DT_RELASZ` tag occurs among the scanned words, `dt_relasz` keeps
its initial value. -/
theorem scanDyn_no_relasz (m : Mem) :
    ∀ (fuel : Nat), ∀ (dynv : Nat) (acc : ScanResult) (s : ScanResult),
      (∀ k, k < fuel → rd m (dynv + sizeOfDyn * k) ≠ DT_RELASZ) →
      scanDyn m fuel dynv acc = some s →
      s.dt_relasz = acc.dt_relasz := by
  intro fuel
  induction fuel with
  | zero =>
    intro dynv acc s _ hs
    exact absurd hs (by rw [show scanDyn m 0 dynv acc = none from rfl]; exact fun h => by cases h)
  | succ fuel ih =>
    intro dynv acc s hk hs
    rw [scanDyn_succ] at hs
    by_cases hz : rd m dynv = 0
    · rw [if_pos hz] at hs
      cases hs
      rfl
    · rw [if_neg hz] at hs
      have h0 : rd m dynv ≠ DT_RELASZ := by
        have := hk 0 (Nat.succ_pos fuel)
        simpa using this
      have step := ih (dynv + sizeOfDyn) (scanStep acc (rd m dynv) (rd m (dynv + 8))) s
        (by
          intro k hkk
          have e : dynv + sizeOfDyn + sizeOfDyn * k = dynv + sizeOfDyn * (k + 1) := by ring
          rw [e]
          exact hk (k + 1) (Nat.succ_lt_succ hkk))
        hs
      rw [step]
      exact scanStep_relasz acc _ _ h0

/-! ### Bootstrap (`rcrt`) support lemmas -/

theorem scanAuxv_succ (m : Mem) (fuel p : Nat) (st : AuxState) :
    scanAuxv m (fuel + 1) p st =
      if rd m p = 0 then some st
      else
        if (auxStep st (rd m p) (rd m (p + 8))).ph ≠ 0 ∧
            (auxStep st (rd m p) (rd m (p + 8))).phentsize ≠ 0 ∧
            (auxStep st (rd m p) (rd m (p + 8))).phnum ≠ 0 then
          some (auxStep st (rd m p) (rd m (p + 8)))
        else scanAuxv m fuel (p + 16) (auxStep st (rd m p) (rd m (p + 8))) := rfl

theorem auxStep_phnum (st : AuxState) (key val : Nat) (h : key ≠ AT_PHNUM) :
    (auxStep st key val).phnum = st.phnum := by
  unfold auxStep
  by_cases h1 : key = AT_PHDR
  · rw [if_pos h1]
  · rw [if_neg h1]
    by_cases h2 : key = AT_PHENT
    · rw [if_pos h2]
    · rw [if_neg h2, if_neg h]

/-- If no `AT_PHNUM` key occurs among the scanned pairs, `phnum` stays 0. -/
theorem scanAuxv_no_phnum (m : Mem) :
    ∀ (fuel : Nat), ∀ (p : Nat) (st : AuxState) (st2 : AuxState),
      st.phnum = 0 →
      (∀ k, k < fuel → rd m (p + 16 * k) ≠ AT_PHNUM) →
      scanAuxv m fuel p st = some st2 →
      st2.phnum = 0 := by
  intro fuel
  induction fuel with
  | zero =>
    intro p st st2 _ _ hs
    exact absurd hs (by rw [show scanAuxv m 0 p st = none from rfl]; exact fun h => by cases h)
  | succ fuel ih =>
    intro p st st2 h0 hk hs
    rw [scanAuxv_succ] at hs
    by_cases hz : rd m p = 0
    · rw [if_pos hz] at hs
      cases hs
      exact h0
    · rw [if_neg hz] at hs
      have hkey : rd m p ≠ AT_PHNUM := by
        have := hk 0 (Nat.succ_pos fuel)
        simpa using this
      have hph : (auxStep st (rd m p) (rd m (p + 8))).phnum = 0 := by
        rw [auxStep_phnum st _ _ hkey]
        exact h0
      have hcond : ¬((auxStep st (rd m p) (rd m (p + 8))).ph ≠ 0 ∧
          (auxStep st (rd m p) (rd m (p + 8))).phentsize ≠ 0 ∧
          (auxStep st (rd m p) (rd m (p + 8))).phnum ≠ 0) := by
        intro hc
        exact hc.2.2 hph
      rw [if_neg hcond] at hs
      exact ih (p + 16) (auxStep st (rd m p) (rd m (p + 8))) st2 hph
        (by
          intro k hkk
          have e : p + 16 + 16 * k = p + 16 * (k + 1) := by ring
          rw [e]
          exact hk (k + 1) (Nat.succ_lt_succ hkk))
        hs

theorem phAddr_zero (pe ph : Nat) : phAddr pe ph 0 = ph := rfl

theorem phAddr_succ (pe ph j : Nat) :
    phAddr pe ph (j + 1) = phAddr pe ((ph + pe) % U64) j := rfl

theorem walkPh_zero (m : Mem) (dynv pe ef ph : Nat) :
    walkPh m dynv pe ef 0 ph = some RcrtResult.trap := rfl

theorem walkPh_succ (m : Mem) (dynv pe ef cnt ph : Nat) :
    walkPh m dynv pe ef (cnt + 1) ph =
      if rd m ph % 2 ^ 32 = PT_DYNAMIC then
        match inner_dyn_reloc ef m dynv (u64_sub dynv (rd m (ph + 16))) with
        | none => none
        | some m2 => some (RcrtResult.preMain (u64_sub dynv (rd m (ph + 16))) m2)
      else walkPh m dynv pe ef cnt ((ph + pe) % U64) := rfl

/-- If none of the `cnt` headers has type `PT_DYNAMIC`, the walk is exhausted
and the `unreachable!()` on line 156 is reached. -/
theorem walkPh_trap (m : Mem) (dynv pe ef : Nat) :
    ∀ (cnt : Nat), ∀ (ph : Nat),
      (∀ j, j < cnt → rd m (phAddr pe ph j) % 2 ^ 32 ≠ PT_DYNAMIC) →
      walkPh m dynv pe ef cnt ph = some RcrtResult.trap := by
  intro cnt
  induction cnt with
  | zero => intro ph _; rfl
  | succ cnt ih =>
    intro ph h
    have h0 : rd m ph % 2 ^ 32 ≠ PT_DYNAMIC := h 0 (Nat.succ_pos cnt)
    rw [walkPh_succ, if_neg h0]
    exact ih ((ph + pe) % U64) (fun j hj => h (j + 1) (Nat.succ_lt_succ hj))

/-- If header `j` is the first of type `PT_DYNAMIC`, the walk runs the engine
with `base = dynv - p_vaddr(j)` and reaches `pre_main`. -/
theorem walkPh_found (m : Mem) (dynv pe ef : Nat) :
    ∀ (j : Nat), ∀ (cnt ph : Nat) (m2 : Mem),
      j < cnt →
      (∀ j2, j2 < j → rd m (phAddr pe ph j2) % 2 ^ 32 ≠ PT_DYNAMIC) →
      rd m (phAddr pe ph j) % 2 ^ 32 = PT_DYNAMIC →
      inner_dyn_reloc ef m dynv (u64_sub dynv (rd m (phAddr pe ph j + 16))) = some m2 →
      walkPh m dynv pe ef cnt ph =
        some (RcrtResult.preMain (u64_sub dynv (rd m (phAddr pe ph j + 16))) m2) := by
  intro j
  induction j with
  | zero =>
    intro cnt ph m2 hj _ hdyn heng
    obtain ⟨c, rfl⟩ : ∃ c, cnt = c + 1 := ⟨cnt - 1, by omega⟩
    rw [phAddr_zero] at hdyn heng
    rw [walkPh_succ, if_pos hdyn, heng, phAddr_zero]
  | succ j ih =>
    intro cnt ph m2 hj hbef hdyn heng
    obtain ⟨c, rfl⟩ : ∃ c, cnt = c + 1 := ⟨cnt - 1, by omega⟩
    have h0 : rd m ph % 2 ^ 32 ≠ PT_DYNAMIC := hbef 0 (Nat.succ_pos j)
    rw [walkPh_succ, if_neg h0]
    exact ih c ((ph + pe) % U64) m2 (by omega)
      (fun j2 h2 => hbef (j2 + 1) (Nat.succ_lt_succ h2)) hdyn heng

/-- Unfolding of `rcrt` once the argv/env skip and the auxv scan are known. -/
theorem rcrt_eq (m : Mem) (dynv sp nfuel afuel efuel : Nat) (i : Nat) (st : AuxState)
    (hnull : findNull m nfuel (sp + 8) (rd m sp + 1) = some i)
    (haux : scanAuxv m afuel (sp + 8 + 8 * (i + 1)) auxInit = some st) :
    rcrt m dynv sp nfuel afuel efuel = walkPh m dynv st.phentsize efuel st.phnum st.ph := by
  unfold rcrt
  rw [hnull]
  show (match scanAuxv m afuel (sp + 8 + 8 * (i + 1)) auxInit with
    | none => none
    | some st => walkPh m dynv st.phentsize efuel st.phnum st.ph) =
      walkPh m dynv st.phentsize efuel st.phnum st.ph
  rw [haux]

/-! ## Claim theorems -/

/-- C1: for every dynamic table whose relocation entries are all
implicit-addend (`Rel`) entries of the load-bias-relative type (no
explicit-addend table recorded), running the Relocation Engine sets each
target cell at `load_bias + offset` to its prior value plus `load_bias`
(as u64 arithmetic) and leaves every other memory location unchanged.
The separation hypotheses (`hsep`, `hdist`) are the well-formedness
conditions implicit in "each target cell": targets are pairwise distinct and
do not overlap the relocation-table entries themselves. -/
theorem dyn_reloc_rel_relative (fuel : Nat) (m : Mem) (dynv base r n z : Nat)
    (hscan : scanDyn m fuel dynv scanInit = some ⟨some r, n, none, z⟩)
    (htypes : ∀ i, i < n → relType m ((base + r) % U64) i = R_X86_64_RELATIVE)
    (hsep : ∀ i, i < n → ∀ j, j < n →
      relTarget base m ((base + r) % U64) i ≠ (base + r) % U64 + sizeOfRel * j ∧
      relTarget base m ((base + r) % U64) i ≠ (base + r) % U64 + sizeOfRel * j + 8)
    (hdist : ∀ i, i < n → ∀ j, j < n → i ≠ j →
      relTarget base m ((base + r) % U64) i ≠ relTarget base m ((base + r) % U64) j) :
    ∃ m2, inner_dyn_reloc fuel m dynv base = some m2 ∧
      (∀ i, i < n → m2 (relTarget base m ((base + r) % U64) i) =
        (rd m (relTarget base m ((base + r) % U64) i) + base) % U64) ∧
      (∀ a, (∀ i, i < n → a ≠ relTarget base m ((base + r) % U64) i) → m2 a = m a) := by
  refine ⟨processRels base ((base + r) % U64) n m, ?_, ?_, ?_⟩
  · rw [inner_dyn_reloc_scan fuel m dynv base ⟨some r, n, none, z⟩ hscan]
    rfl
  · intro i hi
    exact processRels_values base n ((base + r) % U64) m
      (fun i j hi hj _ => hsep i hi j hj)
      (fun i j hi hj hne _ _ => hdist i hi j hj hne)
      i hi (htypes i hi)
  · intro a ha
    exact processRels_frame base n ((base + r) % U64) m
      (fun i j hi hj _ => hsep i hi j hj) a
      (fun i hi _ => ha i hi)

/-- Witness for C1 on `relMem1`: two load-bias-relative entries, bias 0x100. -/
theorem dyn_reloc_rel_relative_witness :
    ∃ m2, inner_dyn_reloc 4 relMem1 0 0x100 = some m2 ∧
      (∀ i, i < 2 → m2 (relTarget 0x100 relMem1 ((0x100 + 0x100) % U64) i) =
        (rd relMem1 (relTarget 0x100 relMem1 ((0x100 + 0x100) % U64) i) + 0x100) % U64) ∧
      (∀ a, (∀ i, i < 2 → a ≠ relTarget 0x100 relMem1 ((0x100 + 0x100) % U64) i) →
        m2 a = relMem1 a) :=
  dyn_reloc_rel_relative 4 relMem1 0 0x100 0x100 2 0 (by rfl) (by decide) (by decide)
    (by decide)

/-- C2: for every explicit-addend (`Rela`) relocation entry of the
load-bias-relative type, running the Relocation Engine sets the target cell
at `load_bias + offset` to exactly `load_bias + addend` (as u64 arithmetic),
independent of the cell's prior contents: `relaValue` does not read the
target cell.  Separation hypotheses as in C1. -/
theorem dyn_reloc_rela_relative (fuel : Nat) (m : Mem) (dynv base ra n z : Nat)
    (hscan : scanDyn m fuel dynv scanInit = some ⟨none, z, some ra, n⟩)
    (hsep : ∀ i, i < n → ∀ j, j < n →
      relaType m ((base + ra) % U64) i = R_X86_64_RELATIVE →
      relaTarget base m ((base + ra) % U64) i ≠ (base + ra) % U64 + sizeOfRela * j ∧
      relaTarget base m ((base + ra) % U64) i ≠ (base + ra) % U64 + sizeOfRela * j + 8 ∧
      relaTarget base m ((base + ra) % U64) i ≠ (base + ra) % U64 + sizeOfRela * j + 16)
    (hdist : ∀ i, i < n → ∀ j, j < n → i ≠ j →
      relaType m ((base + ra) % U64) i = R_X86_64_RELATIVE →
      relaType m ((base + ra) % U64) j = R_X86_64_RELATIVE →
      relaTarget base m ((base + ra) % U64) i ≠ relaTarget base m ((base + ra) % U64) j) :
    ∃ m2, inner_dyn_reloc fuel m dynv base = some m2 ∧
      ∀ i, i < n → relaType m ((base + ra) % U64) i = R_X86_64_RELATIVE →
        m2 (relaTarget base m ((base + ra) % U64) i) =
          relaValue base m ((base + ra) % U64) i := by
  refine ⟨processRelas base ((base + ra) % U64) n m, ?_, ?_⟩
  · rw [inner_dyn_reloc_scan fuel m dynv base ⟨none, z, some ra, n⟩ hscan]
    rfl
  · intro i hi hti
    exact processRelas_values base n ((base + ra) % U64) m
      (fun i j hi hj => hsep i hi j hj)
      (fun i j hi hj hne => hdist i hi j hj hne) i hi hti

/-- Witness for C2 on `relaMem2`: the load-bias-relative entry's target gets
`0x100 + 0x111 = 0x211`, regardless of the `0xdead` it held before. -/
theorem dyn_reloc_rela_relative_witness :
    ∃ m2, inner_dyn_reloc 4 relaMem2 0 0x100 = some m2 ∧
      ∀ i, i < 2 → relaType relaMem2 ((0x100 + 0x100) % U64) i = R_X86_64_RELATIVE →
        m2 (relaTarget 0x100 relaMem2 ((0x100 + 0x100) % U64) i) =
          relaValue 0x100 relaMem2 ((0x100 + 0x100) % U64) i :=
  dyn_reloc_rela_relative 4 relaMem2 0 0x100 0x100 2 0 (by rfl) (by decide)
    (fun i hi j hj hne h1 h2 =>
      (by decide : ∀ i, i < 2 → ∀ j, j < 2 →
          i ≠ j ∧ relaType relaMem2 ((0x100 + 0x100) % U64) i = R_X86_64_RELATIVE ∧
            relaType relaMem2 ((0x100 + 0x100) % U64) j = R_X86_64_RELATIVE →
          relaTarget 0x100 relaMem2 ((0x100 + 0x100) % U64) i ≠
            relaTarget 0x100 relaMem2 ((0x100 + 0x100) % U64) j)
        i hi j hj ⟨hne, h1, h2⟩)

/-- C5 counterexample: with a recorded `DT_RELSZ` of 8 — not a multiple of
the 16-byte `Rel` entry size — the Relocation Engine reaches no unreachable
point: it completes normally (`some`), leaving memory unchanged, instead of
trapping. -/
theorem inner_dyn_reloc_nonmultiple_completes :
    rd sizeMem5 24 % sizeOfRel ≠ 0 ∧
    inner_dyn_reloc 5 sizeMem5 0 0x100 = some sizeMem5 := by
  constructor
  · decide
  · rfl

/-- C5 (amended): a recorded relocation-table size that is not a multiple of
the entry size is floor-divided (`d_val as usize / size_of`), producing a
truncated entry count; the Relocation Engine contains no unreachable program
point and completes normally whenever the dynamic-table scan terminates. -/
theorem inner_dyn_reloc_completes (fuel : Nat) (m : Mem) (dynv base : Nat) (s : ScanResult)
    (hscan : scanDyn m fuel dynv scanInit = some s) :
    (inner_dyn_reloc fuel m dynv base).isSome = true ∧
    (∀ acc val, (scanStep acc DT_RELSZ val).dt_relsz = val / sizeOfRel) ∧
    (∀ acc val, (scanStep acc DT_RELASZ val).dt_relasz = val / sizeOfRela) := by
  refine ⟨?_, ?_, ?_⟩
  · rw [inner_dyn_reloc_scan fuel m dynv base s hscan]
    rfl
  · intro acc val
    unfold scanStep
    rw [if_neg (by decide : ¬(DT_RELSZ = DT_REL)), if_pos rfl]
  · intro acc val
    unfold scanStep
    rw [if_neg (by decide : ¬(DT_RELASZ = DT_REL)),
      if_neg (by decide : ¬(DT_RELASZ = DT_RELSZ)),
      if_neg (by decide : ¬(DT_RELASZ = DT_RELA)), if_pos rfl]

/-- Witness for the amended C5 at the non-multiple-size input `sizeMem5`. -/
theorem inner_dyn_reloc_completes_witness :
    (inner_dyn_reloc 5 sizeMem5 0 0x100).isSome = true ∧
    (∀ acc val, (scanStep acc DT_RELSZ val).dt_relsz = val / sizeOfRel) ∧
    (∀ acc val, (scanStep acc DT_RELASZ val).dt_relasz = val / sizeOfRela) :=
  inner_dyn_reloc_completes 5 sizeMem5 0 0x100 ⟨some 0x100, 0, none, 0⟩ (by rfl)

/-- C8: in both loops an entry is processed exactly when
`r_info & R_TYPE_MASK = R_X86_64_RELATIVE`, and the mask `0x7fffffff` keeps
the low 31 bits (`x % 2 ^ 31`): it clears the sign bit of the low 32-bit
field rather than isolating the full 32-bit type field (`R_TYPE_MASK` is not
`2 ^ 32 - 1`).  In particular an info word of `0x80000008` — whose low
32-bit field is not 8 — is still processed as load-bias-relative. -/
theorem reloc_type_mask (m : Mem) (base p : Nat) :
    (applyRel base m p =
      if Nat.land (rd m (p + 8)) R_TYPE_MASK = R_X86_64_RELATIVE then
        memWrite m ((base + rd m p) % U64) ((rd m ((base + rd m p) % U64) + base) % U64)
      else m) ∧
    (applyRela base m p =
      if Nat.land (rd m (p + 8)) R_TYPE_MASK = R_X86_64_RELATIVE then
        memWrite m ((base + rd m p) % U64) ((base + rd m (p + 16)) % U64)
      else m) ∧
    (∀ x, Nat.land x R_TYPE_MASK = x % 2 ^ 31) ∧
    R_TYPE_MASK ≠ 2 ^ 32 - 1 ∧
    Nat.land 0x80000008 R_TYPE_MASK = R_X86_64_RELATIVE ∧
    0x80000008 % 2 ^ 32 ≠ R_X86_64_RELATIVE := by
  refine ⟨rfl, rfl, ?_, by decide, by decide, by decide⟩
  intro x
  have h : R_TYPE_MASK = 2 ^ 31 - 1 := by decide
  rw [h]
  exact Nat.and_pow_two_sub_one_eq_mod x 31

/-- C9: when the dynamic table records a relocation-table address tag but no
corresponding size tag, the entry count stays at its default 0, so the
Relocation Engine iterates over zero entries, performs no write, and
completes normally with memory unchanged. -/
theorem missing_size_tag_zero_count (fuel : Nat) (m : Mem) (dynv base : Nat) (s : ScanResult)
    (hscan : scanDyn m fuel dynv scanInit = some s)
    (_haddr : s.dt_rel.isSome = true ∨ s.dt_rela.isSome = true)
    (hnorelsz : ∀ k, k < fuel → rd m (dynv + sizeOfDyn * k) ≠ DT_RELSZ)
    (hnorelasz : ∀ k, k < fuel → rd m (dynv + sizeOfDyn * k) ≠ DT_RELASZ) :
    s.dt_relsz = 0 ∧ s.dt_relasz = 0 ∧ inner_dyn_reloc fuel m dynv base = some m := by
  have h1 : s.dt_relsz = 0 := by
    rw [scanDyn_no_relsz m fuel dynv scanInit s hnorelsz hscan]
    rfl
  have h2 : s.dt_relasz = 0 := by
    rw [scanDyn_no_relasz m fuel dynv scanInit s hnorelasz hscan]
    rfl
  refine ⟨h1, h2, ?_⟩
  rw [inner_dyn_reloc_scan fuel m dynv base s hscan, relPhase_relsz_zero base s m h1,
    relaPhase_relasz_zero base s m h2]

/-- Witness for C9: `tableMem9` has `DT_REL` but no `DT_RELSZ`. -/
theorem missing_size_tag_zero_count_witness :
    (⟨some 0x100, 0, none, 0⟩ : ScanResult).dt_relsz = 0 ∧
    (⟨some 0x100, 0, none, 0⟩ : ScanResult).dt_relasz = 0 ∧
    inner_dyn_reloc 2 tableMem9 0 7 = some tableMem9 :=
  missing_size_tag_zero_count 2 tableMem9 0 7 ⟨some 0x100, 0, none, 0⟩ (by rfl)
    (Or.inl (by decide)) (by decide) (by decide)

/-- C3: whenever the program-header walk finds a `PT_DYNAMIC` header (the
first such, at index `j`), `rcrt` computes the load bias as the wrapping u64
difference between the dynamic-section pointer it was given and that
header's recorded `p_vaddr`, runs the Relocation Engine with it, and hands
that bias and the relocated memory to `pre_main`.  The witness instantiates
the synthetic end-to-end scenario: bias `0x1000`, relocated cell
`V + 0x1000 + 0x10` holding `0x3000`. -/
theorem rcrt_load_bias (m : Mem) (dynv sp nfuel afuel efuel i j : Nat)
    (st : AuxState) (m2 : Mem)
    (hnull : findNull m nfuel (sp + 8) (rd m sp + 1) = some i)
    (haux : scanAuxv m afuel (sp + 8 + 8 * (i + 1)) auxInit = some st)
    (hj : j < st.phnum)
    (hbef : ∀ j2, j2 < j → rd m (phAddr st.phentsize st.ph j2) % 2 ^ 32 ≠ PT_DYNAMIC)
    (hdyn : rd m (phAddr st.phentsize st.ph j) % 2 ^ 32 = PT_DYNAMIC)
    (heng : inner_dyn_reloc efuel m dynv
      (u64_sub dynv (rd m (phAddr st.phentsize st.ph j + 16))) = some m2) :
    rcrt m dynv sp nfuel afuel efuel =
      some (RcrtResult.preMain
        (u64_sub dynv (rd m (phAddr st.phentsize st.ph j + 16))) m2) := by
  rw [rcrt_eq m dynv sp nfuel afuel efuel i st hnull haux]
  exact walkPh_found m dynv st.phentsize efuel j st.phnum st.ph m2 hj hbef hdyn heng

/-- Witness for C3 on `stackMem3` (V = 0x10000): computed bias `0x1000`, and
afterwards the cell at `V + 0x1000 + 0x10` holds `0x2000 + 0x1000 = 0x3000`. -/
theorem rcrt_load_bias_witness :
    rcrt stackMem3 0x11000 0x8000 4 4 8 =
      some (RcrtResult.preMain 0x1000 (memWrite stackMem3 0x11010 0x3000)) ∧
    memWrite stackMem3 0x11010 0x3000 (0x10000 + 0x1000 + 0x10) = 0x3000 :=
  ⟨rcrt_load_bias stackMem3 0x11000 0x8000 4 4 8 2 0 ⟨0x7000, 56, 1⟩
      (memWrite stackMem3 0x11010 0x3000)
      (by rfl) (by rfl) (by decide) (fun j2 h => absurd h (Nat.not_lt_zero j2))
      (by rfl) (by rfl),
    by rfl⟩

/-- C4: if the program-header table contains no `PT_DYNAMIC` entry, `rcrt`
exhausts all `phnum` headers and reaches the `unreachable!()` trap on line
156; the result `RcrtResult.trap` records that neither the Relocation Engine
nor the `pre_main` continuation was ever invoked (those only occur on the
`RcrtResult.preMain` path). -/
theorem rcrt_no_dynamic_traps (m : Mem) (dynv sp nfuel afuel efuel i : Nat)
    (st : AuxState)
    (hnull : findNull m nfuel (sp + 8) (rd m sp + 1) = some i)
    (haux : scanAuxv m afuel (sp + 8 + 8 * (i + 1)) auxInit = some st)
    (hnodyn : ∀ j, j < st.phnum →
      rd m (phAddr st.phentsize st.ph j) % 2 ^ 32 ≠ PT_DYNAMIC) :
    rcrt m dynv sp nfuel afuel efuel = some RcrtResult.trap := by
  rw [rcrt_eq m dynv sp nfuel afuel efuel i st hnull haux]
  exact walkPh_trap m dynv st.phentsize efuel st.phnum st.ph hnodyn

/-- Witness for C4 on `stackMem4`: one header of type `PT_LOAD` (1) only. -/
theorem rcrt_no_dynamic_traps_witness :
    rcrt stackMem4 0x999 0 4 4 4 = some RcrtResult.trap :=
  rcrt_no_dynamic_traps stackMem4 0x999 0 4 4 4 2 ⟨0x7000, 56, 1⟩
    (by rfl) (by rfl) (by decide)

/-- C10: if the auxiliary vector contains no `AT_PHNUM` entry, the
discovered header count stays 0, so the program-header walk performs zero
iterations (`walkPh _ _ _ _ 0 _` is immediately the trap): `rcrt` reaches
the `unreachable!()` without reading any program header, without invoking
the Relocation Engine, and without calling `pre_main`. -/
theorem rcrt_no_phnum_traps (m : Mem) (dynv sp nfuel afuel efuel i : Nat)
    (st : AuxState)
    (hnull : findNull m nfuel (sp + 8) (rd m sp + 1) = some i)
    (haux : scanAuxv m afuel (sp + 8 + 8 * (i + 1)) auxInit = some st)
    (hnokey : ∀ k, k < afuel → rd m (sp + 8 + 8 * (i + 1) + 16 * k) ≠ AT_PHNUM) :
    st.phnum = 0 ∧ rcrt m dynv sp nfuel afuel efuel = some RcrtResult.trap := by
  have h0 : st.phnum = 0 :=
    scanAuxv_no_phnum m afuel (sp + 8 + 8 * (i + 1)) auxInit st rfl hnokey haux
  refine ⟨h0, ?_⟩
  rw [rcrt_eq m dynv sp nfuel afuel efuel i st hnull haux, h0]
  exact walkPh_zero m dynv st.phentsize efuel st.ph

/-- Witness for C10 on `stackMem10`: auxv has `AT_PHDR` and `AT_PHENT` only. -/
theorem rcrt_no_phnum_traps_witness :
    (⟨0x7000, 56, 0⟩ : AuxState).phnum = 0 ∧
    rcrt stackMem10 0x999 0 4 3 4 = some RcrtResult.trap :=
  rcrt_no_phnum_traps stackMem10 0x999 0 4 3 4 2 ⟨0x7000, 56, 0⟩
    (by rfl) (by rfl) (by decide)

/-- C6: entries (in either table) whose masked type is not the
load-bias-relative type cause no write; any address that is not the target
of some load-bias-relative entry — in particular the target of a
foreign-type entry, even interleaved with load-bias-relative ones in the
same table — is left completely unmodified.  The separation hypotheses keep
the load-bias-relative targets clear of both tables' entry fields so that
every entry is read unclobbered. -/
theorem dyn_reloc_foreign_untouched (fuel : Nat) (m : Mem) (dynv base r ra nr na : Nat)
    (hscan : scanDyn m fuel dynv scanInit = some ⟨some r, nr, some ra, na⟩)
    (hsepR : ∀ i, i < nr → ∀ j, j < nr →
      relType m ((base + r) % U64) i = R_X86_64_RELATIVE →
      relTarget base m ((base + r) % U64) i ≠ (base + r) % U64 + sizeOfRel * j ∧
      relTarget base m ((base + r) % U64) i ≠ (base + r) % U64 + sizeOfRel * j + 8)
    (hcross : ∀ i, i < nr → ∀ j, j < na →
      relType m ((base + r) % U64) i = R_X86_64_RELATIVE →
      relTarget base m ((base + r) % U64) i ≠ (base + ra) % U64 + sizeOfRela * j ∧
      relTarget base m ((base + r) % U64) i ≠ (base + ra) % U64 + sizeOfRela * j + 8 ∧
      relTarget base m ((base + r) % U64) i ≠ (base + ra) % U64 + sizeOfRela * j + 16)
    (hsepA : ∀ i, i < na → ∀ j, j < na →
      relaType m ((base + ra) % U64) i = R_X86_64_RELATIVE →
      relaTarget base m ((base + ra) % U64) i ≠ (base + ra) % U64 + sizeOfRela * j ∧
      relaTarget base m ((base + ra) % U64) i ≠ (base + ra) % U64 + sizeOfRela * j + 8 ∧
      relaTarget base m ((base + ra) % U64) i ≠ (base + ra) % U64 + sizeOfRela * j + 16) :
    ∃ m2, inner_dyn_reloc fuel m dynv base = some m2 ∧
      ∀ a, (∀ i, i < nr → relType m ((base + r) % U64) i = R_X86_64_RELATIVE →
              a ≠ relTarget base m ((base + r) % U64) i) →
           (∀ j, j < na → relaType m ((base + ra) % U64) j = R_X86_64_RELATIVE →
              a ≠ relaTarget base m ((base + ra) % U64) j) →
           m2 a = m a := by
  have frameR := processRels_frame base nr ((base + r) % U64) m
    (fun i j hi hj ht => hsepR i hi j hj ht)
  have htypA : ∀ j, j < na →
      relaType (processRels base ((base + r) % U64) nr m) ((base + ra) % U64) j =
        relaType m ((base + ra) % U64) j := by
    intro j hj
    unfold relaType
    rw [rd_congr _ _ _ (frameR _ (fun i hi ht => Ne.symm (hcross i hi j hj ht).2.1))]
  have htgtA : ∀ j, j < na →
      relaTarget base (processRels base ((base + r) % U64) nr m) ((base + ra) % U64) j =
        relaTarget base m ((base + ra) % U64) j := by
    intro j hj
    unfold relaTarget
    rw [rd_congr _ _ _ (frameR _ (fun i hi ht => Ne.symm (hcross i hi j hj ht).1))]
  refine ⟨processRelas base ((base + ra) % U64) na
      (processRels base ((base + r) % U64) nr m), ?_, ?_⟩
  · rw [inner_dyn_reloc_scan fuel m dynv base ⟨some r, nr, some ra, na⟩ hscan]
    rfl
  · intro a haR haA
    have frameA := processRelas_frame base na ((base + ra) % U64)
      (processRels base ((base + r) % U64) nr m)
      (by
        intro i j hi hj ht
        rw [htypA i hi] at ht
        rw [htgtA i hi]
        exact hsepA i hi j hj ht)
      a
      (by
        intro j hj ht
        rw [htypA j hj] at ht
        rw [htgtA j hj]
        exact haA j hj ht)
    rw [frameA]
    exact frameR a (fun i hi ht => haR i hi ht)

/-- Witness for C6 on `mixMem6`: each table interleaves one
load-bias-relative entry with one foreign-type entry. -/
theorem dyn_reloc_foreign_untouched_witness :
    ∃ m2, inner_dyn_reloc 6 mixMem6 0 0x100 = some m2 ∧
      ∀ a, (∀ i, i < 2 → relType mixMem6 ((0x100 + 0x100) % U64) i = R_X86_64_RELATIVE →
              a ≠ relTarget 0x100 mixMem6 ((0x100 + 0x100) % U64) i) →
           (∀ j, j < 2 → relaType mixMem6 ((0x100 + 0x200) % U64) j = R_X86_64_RELATIVE →
              a ≠ relaTarget 0x100 mixMem6 ((0x100 + 0x200) % U64) j) →
           m2 a = mixMem6 a :=
  dyn_reloc_foreign_untouched 6 mixMem6 0 0x100 0x100 0x200 2 2 (by rfl) (by decide)
    (by decide) (by decide)

/-- Adding `b` (nonzero mod 2 ^ 64) to a reduced u64 changes it. -/
theorem add_mod_ne (w b : Nat) (hb : b % U64 ≠ 0) : (w + b) % U64 ≠ w := by
  have hU : U64 = 18446744073709551616 := by norm_num [U64]
  rw [hU] at hb ⊢
  omega

/-- The modulus 2 ^ 64 is positive. -/
theorem U64_pos : 0 < U64 := by norm_num [U64]

/-- C7: applying the Relocation Engine a second time to the same
implicit-addend table (same nonzero load bias, at least one
load-bias-relative entry `i0`) adds the bias again: the target of entry `i0`
differs between the once- and twice-relocated memories, so the Engine is not
idempotent on implicit-addend tables.  `hdynsep` keeps the targets clear of
the words the dynamic-table scan reads, so the second run sees the same
table. -/
theorem dyn_reloc_not_idempotent (fuel : Nat) (m : Mem) (dynv base r n z i0 : Nat)
    (hscan : scanDyn m fuel dynv scanInit = some ⟨some r, n, none, z⟩)
    (hsep : ∀ i, i < n → ∀ j, j < n →
      relType m ((base + r) % U64) i = R_X86_64_RELATIVE →
      relTarget base m ((base + r) % U64) i ≠ (base + r) % U64 + sizeOfRel * j ∧
      relTarget base m ((base + r) % U64) i ≠ (base + r) % U64 + sizeOfRel * j + 8)
    (hdist : ∀ i, i < n → ∀ j, j < n → i ≠ j →
      relType m ((base + r) % U64) i = R_X86_64_RELATIVE →
      relType m ((base + r) % U64) j = R_X86_64_RELATIVE →
      relTarget base m ((base + r) % U64) i ≠ relTarget base m ((base + r) % U64) j)
    (hdynsep : ∀ i, i < n → relType m ((base + r) % U64) i = R_X86_64_RELATIVE →
      ∀ k, k < 2 * fuel → relTarget base m ((base + r) % U64) i ≠ dynv + 8 * k)
    (hi0 : i0 < n) (ht0 : relType m ((base + r) % U64) i0 = R_X86_64_RELATIVE)
    (hbase : base % U64 ≠ 0) :
    ∃ m1 m2, inner_dyn_reloc fuel m dynv base = some m1 ∧
      inner_dyn_reloc fuel m1 dynv base = some m2 ∧
      m2 (relTarget base m ((base + r) % U64) i0) ≠
        m1 (relTarget base m ((base + r) % U64) i0) := by
  have Hd : ∀ i j, i < n → j < n →
      relType m ((base + r) % U64) i = R_X86_64_RELATIVE →
      relTarget base m ((base + r) % U64) i ≠ (base + r) % U64 + sizeOfRel * j ∧
      relTarget base m ((base + r) % U64) i ≠ (base + r) % U64 + sizeOfRel * j + 8 :=
    fun i j hi hj => hsep i hi j hj
  have Hdist : ∀ i j, i < n → j < n → i ≠ j →
      relType m ((base + r) % U64) i = R_X86_64_RELATIVE →
      relType m ((base + r) % U64) j = R_X86_64_RELATIVE →
      relTarget base m ((base + r) % U64) i ≠ relTarget base m ((base + r) % U64) j :=
    fun i j hi hj => hdist i hi j hj
  have frame1 := processRels_frame base n ((base + r) % U64) m Hd
  have htyp1 : ∀ i, i < n →
      relType (processRels base ((base + r) % U64) n m) ((base + r) % U64) i =
        relType m ((base + r) % U64) i := by
    intro i hi
    unfold relType
    rw [rd_congr _ _ _ (frame1 _ (fun i2 hi2 ht2 => Ne.symm (Hd i2 i hi2 hi ht2).2))]
  have htgt1 : ∀ i, i < n →
      relTarget base (processRels base ((base + r) % U64) n m) ((base + r) % U64) i =
        relTarget base m ((base + r) % U64) i := by
    intro i hi
    unfold relTarget
    rw [rd_congr _ _ _ (frame1 _ (fun i2 hi2 ht2 => Ne.symm (Hd i2 i hi2 hi ht2).1))]
  have hscan1 : scanDyn (processRels base ((base + r) % U64) n m) fuel dynv scanInit =
      some ⟨some r, n, none, z⟩ := by
    rw [scanDyn_congr (processRels base ((base + r) % U64) n m) m fuel dynv scanInit
      (fun k hk => rd_congr _ _ _ (frame1 _ (fun i hi ht => Ne.symm (hdynsep i hi ht k hk))))]
    exact hscan
  have Hd1 : ∀ i j, i < n → j < n →
      relType (processRels base ((base + r) % U64) n m) ((base + r) % U64) i =
        R_X86_64_RELATIVE →
      relTarget base (processRels base ((base + r) % U64) n m) ((base + r) % U64) i ≠
        (base + r) % U64 + sizeOfRel * j ∧
      relTarget base (processRels base ((base + r) % U64) n m) ((base + r) % U64) i ≠
        (base + r) % U64 + sizeOfRel * j + 8 := by
    intro i j hi hj ht
    rw [htyp1 i hi] at ht
    rw [htgt1 i hi]
    exact Hd i j hi hj ht
  have Hdist1 : ∀ i j, i < n → j < n → i ≠ j →
      relType (processRels base ((base + r) % U64) n m) ((base + r) % U64) i =
        R_X86_64_RELATIVE →
      relType (processRels base ((base + r) % U64) n m) ((base + r) % U64) j =
        R_X86_64_RELATIVE →
      relTarget base (processRels base ((base + r) % U64) n m) ((base + r) % U64) i ≠
        relTarget base (processRels base ((base + r) % U64) n m) ((base + r) % U64) j := by
    intro i j hi hj hne hti htj
    rw [htyp1 i hi] at hti
    rw [htyp1 j hj] at htj
    rw [htgt1 i hi, htgt1 j hj]
    exact Hdist i j hi hj hne hti htj
  have v1 : (processRels base ((base + r) % U64) n m)
      (relTarget base m ((base + r) % U64) i0) =
      (rd m (relTarget base m ((base + r) % U64) i0) + base) % U64 :=
    processRels_values base n ((base + r) % U64) m Hd Hdist i0 hi0 ht0
  have v2 := processRels_values base n ((base + r) % U64)
    (processRels base ((base + r) % U64) n m) Hd1 Hdist1 i0 hi0
    (by rw [htyp1 i0 hi0]; exact ht0)
  rw [htgt1 i0 hi0] at v2
  have hrd : rd (processRels base ((base + r) % U64) n m)
      (relTarget base m ((base + r) % U64) i0) =
      (rd m (relTarget base m ((base + r) % U64) i0) + base) % U64 := by
    unfold rd
    rw [v1]
    exact Nat.mod_eq_of_lt (Nat.mod_lt _ U64_pos)
  rw [hrd] at v2
  refine ⟨processRels base ((base + r) % U64) n m,
    processRels base ((base + r) % U64) n (processRels base ((base + r) % U64) n m),
    ?_, ?_, ?_⟩
  · rw [inner_dyn_reloc_scan fuel m dynv base ⟨some r, n, none, z⟩ hscan]
    rfl
  · rw [inner_dyn_reloc_scan fuel (processRels base ((base + r) % U64) n m) dynv base
      ⟨some r, n, none, z⟩ hscan1]
    rfl
  · rw [v2, v1]
    exact add_mod_ne ((rd m (relTarget base m ((base + r) % U64) i0) + base) % U64) base
      hbase

/-- Witness for C7 on `twiceMem7`: one load-bias-relative entry, bias 0x100;
the target holds 5, then 0x105, then 0x205. -/
theorem dyn_reloc_not_idempotent_witness :
    ∃ m1 m2, inner_dyn_reloc 4 twiceMem7 0 0x100 = some m1 ∧
      inner_dyn_reloc 4 m1 0 0x100 = some m2 ∧
      m2 (relTarget 0x100 twiceMem7 ((0x100 + 0x100) % U64) 0) ≠
        m1 (relTarget 0x100 twiceMem7 ((0x100 + 0x100) % U64) 0) :=
  dyn_reloc_not_idempotent 4 twiceMem7 0 0x100 0x100 1 0 0 (by rfl) (by decide)
    (fun i hi j hj hne _ _ => absurd (by omega : i = j) hne)
    (by decide) (by decide) (by decide) (by decide)
